import Mathlib

/-!
Verification of the Willard-Chandler instantaneous-interface calculator
(`example.ipynb` driving the `WCIS_functions` module).

Numeric values are embedded as rationals; NumPy arrays become lists of
rationals; the per-species `params['data']` dictionary becomes an
association list.  The notebook cells under `src/` are embedded directly;
the parts of `WCIS_functions` that are not part of the excerpt are
modelled from the specification, and each such definition says so in its
doc comment.
-/

/-- Error taxonomy of the run (spec section 7). -/
inductive WCError where
  | InvalidConfiguration
  | NoCrossing
  | OutOfRange
  | DegenerateGeometry
  deriving DecidableEq, Repr

/-- A vertex of a triangulated surface: a point in real space. -/
abbrev Vertex : Type := ℚ × ℚ × ℚ

/-- One branch (upper or lower) of the instantaneous interface, as returned
by the marching-cubes extraction: the vertex array is the first component
of the returned tuple, the triangulation the second. -/
structure Surface where
  verts : List Vertex
  faces : List (Nat × Nat × Nat)
  deriving DecidableEq

/-- Orientation-capable per-side data: in the notebook this is the dict
holding the concentration histogram under the key `conc` and the
cosine-sum histogram under the key `cosine`. -/
structure OrientData where
  conc : List ℚ
  cosine : List ℚ
  deriving DecidableEq

/-- Per-species accumulated data, `params['data'][name]`: either a plain
concentration histogram per side, or (when `atomdata['upper']` is a dict)
a concentration histogram and a cosine-sum histogram per side. -/
inductive AtomData where
  | concOnly (upper lower : List ℚ)
  | withOrient (upper lower : OrientData)
  deriving DecidableEq

/-- The `params['data']` mapping: species name to accumulated data. -/
abbrev ProfData : Type := List (String × AtomData)

/-- Cell-8 of the notebook, one `atomdata`: if `atomdata['upper']` is a
dict, divide the `conc` and `cosine` arrays of both sides by `cnt`,
otherwise divide the plain per-side arrays by `cnt`. -/
def cell8_normalizeAtom (cnt : ℚ) : AtomData → AtomData
  | AtomData.withOrient u l =>
      AtomData.withOrient
        ⟨u.conc.map (fun x => x / cnt), u.cosine.map (fun x => x / cnt)⟩
        ⟨l.conc.map (fun x => x / cnt), l.cosine.map (fun x => x / cnt)⟩
  | AtomData.concOnly u l =>
      AtomData.concOnly (u.map (fun x => x / cnt)) (l.map (fun x => x / cnt))

/-- Cell-8 of the notebook: the loop `for atomdata in params['data'].values()`
normalizing every accumulated histogram by the frame counter `cnt`. -/
def cell8_normalize (cnt : ℚ) (d : ProfData) : ProfData :=
  d.map (fun p => (p.1, cell8_normalizeAtom cnt p.2))

/-- The normalization the specification describes for orientation
histograms: cosine-sums divided bin-wise by the per-bin orientation
counts.  Stated from the spec's words, to be compared with the cell-8
code. -/
def specCosineNormalize (cosineSum counts : List ℚ) : List ℚ :=
  List.zipWith (fun s c => s / c) cosineSum counts

/-- State of the cell-6 frame loop: the two surface lists, the frame
counter `cnt`, and the shared `params['data']` accumulator. -/
structure Cell6State where
  upperS : List (List Vertex)
  lowerS : List (List Vertex)
  cnt : Nat
  data : ProfData
  deriving DecidableEq

/-- One iteration of the cell-6 loop: load frame `i`, extract the two
surfaces, append each vertex array (first tuple element) to its list,
run `calc_profiles` for the upper side (`sign=1`) then the lower side
(`sign=-1`) on the shared accumulator, and increment `cnt`.  The
isosurface extraction and `calc_profiles` of frame `i` are the
parameters `find` and `calcProf` (`WCIS_functions` is external to the
excerpt). -/
def cell6_step (find : Nat → Surface × Surface)
    (calcProf : Nat → Surface → Bool → ℤ → ProfData → ProfData)
    (st : Cell6State) (i : Nat) : Cell6State :=
  let ul := find i
  { upperS := st.upperS ++ [ul.1.verts]
    lowerS := st.lowerS ++ [ul.2.verts]
    cnt := st.cnt + 1
    data := calcProf i ul.2 false (-1) (calcProf i ul.1 true 1 st.data) }

/-- Cell-6 of the notebook: starting from empty surface lists, `cnt = 0`
and the initial accumulator, iterate over frames `0, ..., n-1`. -/
def cell6_loop (find : Nat → Surface × Surface)
    (calcProf : Nat → Surface → Bool → ℤ → ProfData → ProfData)
    (init : ProfData) (n : Nat) : Cell6State :=
  (List.range n).foldl (cell6_step find calcProf) ⟨[], [], 0, init⟩

/-- Unfolding of the loop at the last frame. -/
theorem cell6_loop_succ (find : Nat → Surface × Surface)
    (calcProf : Nat → Surface → Bool → ℤ → ProfData → ProfData)
    (init : ProfData) (n : Nat) :
    cell6_loop find calcProf init (n + 1) =
      cell6_step find calcProf (cell6_loop find calcProf init n) n := by
  unfold cell6_loop
  rw [List.range_succ, List.foldl_append, List.foldl_cons, List.foldl_nil]

/-- The frame counter after the loop equals the number of processed
frames, whatever the extraction and profile functions did. -/
theorem cell6_loop_cnt (find : Nat → Surface × Surface)
    (calcProf : Nat → Surface → Bool → ℤ → ProfData → ProfData)
    (init : ProfData) (n : Nat) :
    (cell6_loop find calcProf init n).cnt = n := by
  induction n with
  | zero => rfl
  | succ n ih => rw [cell6_loop_succ, cell6_step]; simp [ih]

/-- C1: the claim states the final mean-cosine profile divides cosine-sums
by per-bin orientation counts.  Counterexample: a one-frame run whose
accumulated orientation data for species O has count 2 and cosine-sum 2
in its single bin.  The cell-8 normalization divides by `cnt = 1` and
returns cosine value 2, while dividing by the orientation count would
return 1, and 2 is not 1. -/
theorem cell8_cosine_not_divided_by_counts :
    cell8_normalize
        (((cell6_loop (fun _ => (⟨[], []⟩, ⟨[], []⟩))
            (fun _ _ lab _ d =>
              if lab then [("O", AtomData.withOrient ⟨[2], [2]⟩ ⟨[2], [2]⟩)] else d)
            [("O", AtomData.withOrient ⟨[0], [0]⟩ ⟨[0], [0]⟩)] 1).cnt : ℚ))
        ((cell6_loop (fun _ => (⟨[], []⟩, ⟨[], []⟩))
            (fun _ _ lab _ d =>
              if lab then [("O", AtomData.withOrient ⟨[2], [2]⟩ ⟨[2], [2]⟩)] else d)
            [("O", AtomData.withOrient ⟨[0], [0]⟩ ⟨[0], [0]⟩)] 1).data)
      = [("O", AtomData.withOrient ⟨[2], [2]⟩ ⟨[2], [2]⟩)] ∧
    specCosineNormalize [2] [2] = [1] ∧ ([2] : List ℚ) ≠ [1] := by
  refine ⟨?_, ?_, ?_⟩
  · simp [cell6_loop, List.range_succ, cell6_step, cell8_normalize, cell8_normalizeAtom]
  · simp [specCosineNormalize]
  · norm_num

/-- C1 amended: at the end of a run the final mean-cosine profile is the
accumulated cosine-sum histogram divided bin-wise by the frame counter
`cnt` (which equals the number of processed frames) - the same divisor as
the concentration histograms - not by the per-bin orientation counts. -/
theorem cell8_cosine_divided_by_frame_count
    (find : Nat → Surface × Surface)
    (calcProf : Nat → Surface → Bool → ℤ → ProfData → ProfData)
    (init : ProfData) (n : Nat) (name : String) (u l : OrientData)
    (hmem : (name, AtomData.withOrient u l) ∈ (cell6_loop find calcProf init n).data) :
    (cell6_loop find calcProf init n).cnt = n ∧
    (name, AtomData.withOrient
        ⟨u.conc.map (fun x => x / (n : ℚ)), u.cosine.map (fun x => x / (n : ℚ))⟩
        ⟨l.conc.map (fun x => x / (n : ℚ)), l.cosine.map (fun x => x / (n : ℚ))⟩) ∈
      cell8_normalize (((cell6_loop find calcProf init n).cnt : ℚ))
        (cell6_loop find calcProf init n).data := by
  refine ⟨cell6_loop_cnt find calcProf init n, ?_⟩
  rw [cell6_loop_cnt find calcProf init n]
  unfold cell8_normalize
  exact List.mem_map.mpr ⟨(name, AtomData.withOrient u l), hmem, rfl⟩

/-- Witness for the amended C1 theorem at a concrete one-frame run. -/
theorem cell8_cosine_divided_by_frame_count_witness :
    ("O", AtomData.withOrient
        ⟨([(2 : ℚ)]).map (fun x => x / ((1 : Nat) : ℚ)),
         ([(2 : ℚ)]).map (fun x => x / ((1 : Nat) : ℚ))⟩
        ⟨([(2 : ℚ)]).map (fun x => x / ((1 : Nat) : ℚ)),
         ([(2 : ℚ)]).map (fun x => x / ((1 : Nat) : ℚ))⟩) ∈
      cell8_normalize
        (((cell6_loop (fun _ => (⟨[], []⟩, ⟨[], []⟩))
            (fun _ _ lab _ d =>
              if lab then [("O", AtomData.withOrient ⟨[2], [2]⟩ ⟨[2], [2]⟩)] else d)
            [("O", AtomData.withOrient ⟨[0], [0]⟩ ⟨[0], [0]⟩)] 1).cnt : ℚ))
        (cell6_loop (fun _ => (⟨[], []⟩, ⟨[], []⟩))
            (fun _ _ lab _ d =>
              if lab then [("O", AtomData.withOrient ⟨[2], [2]⟩ ⟨[2], [2]⟩)] else d)
            [("O", AtomData.withOrient ⟨[0], [0]⟩ ⟨[0], [0]⟩)] 1).data :=
  (cell8_cosine_divided_by_frame_count
    (fun _ => (⟨[], []⟩, ⟨[], []⟩))
    (fun _ _ lab _ d =>
      if lab then [("O", AtomData.withOrient ⟨[2], [2]⟩ ⟨[2], [2]⟩)] else d)
    [("O", AtomData.withOrient ⟨[0], [0]⟩ ⟨[0], [0]⟩)] 1
    "O" ⟨[2], [2]⟩ ⟨[2], [2]⟩ (by decide)).2

/-- C2: the cell-8 normalization divides every accumulated histogram by
the frame counter `cnt`, and `cnt` equals the total number of processed
frames whatever `calc_profiles` contributed on each frame (a frame whose
contribution is zero is counted exactly like any other, so it dilutes
rather than being excluded from the divisor). -/
theorem cell8_divides_by_total_frames
    (find : Nat → Surface × Surface)
    (calcProf calcProf2 : Nat → Surface → Bool → ℤ → ProfData → ProfData)
    (init : ProfData) (n : Nat) :
    (cell6_loop find calcProf init n).cnt = n ∧
    (cell6_loop find calcProf init n).cnt = (cell6_loop find calcProf2 init n).cnt ∧
    cell8_normalize (((cell6_loop find calcProf init n).cnt : ℚ))
        (cell6_loop find calcProf init n).data
      = (cell6_loop find calcProf init n).data.map
          (fun p => (p.1, cell8_normalizeAtom ((n : ℚ)) p.2)) := by
  refine ⟨cell6_loop_cnt find calcProf init n, ?_, ?_⟩
  · rw [cell6_loop_cnt find calcProf init n, cell6_loop_cnt find calcProf2 init n]
  · rw [cell6_loop_cnt find calcProf init n]
    rfl

/-- C10: after the cell-6 loop over `n` frames, `cnt = n`, the lists
`upperS` and `lowerS` each hold exactly `cnt` entries, and the `i`-th
entry of each is the vertex array (first tuple element) of the surface
extracted from frame `i`. -/
theorem cell6_loop_surfaces
    (find : Nat → Surface × Surface)
    (calcProf : Nat → Surface → Bool → ℤ → ProfData → ProfData)
    (init : ProfData) (n : Nat) :
    (cell6_loop find calcProf init n).cnt = n ∧
    (cell6_loop find calcProf init n).upperS.length = n ∧
    (cell6_loop find calcProf init n).lowerS.length = n ∧
    ∀ i, i < n →
      (cell6_loop find calcProf init n).upperS[i]? = some (find i).1.verts ∧
      (cell6_loop find calcProf init n).lowerS[i]? = some (find i).2.verts := by
  induction n with
  | zero =>
    refine ⟨rfl, rfl, rfl, ?_⟩
    intro i hi
    exact absurd hi (Nat.not_lt_zero i)
  | succ n ih =>
    obtain ⟨hc, hu, hl, hget⟩ := ih
    rw [cell6_loop_succ]
    refine ⟨by simp [cell6_step, hc], by simp [cell6_step, hu],
      by simp [cell6_step, hl], ?_⟩
    intro i hi
    rcases Nat.lt_succ_iff_lt_or_eq.mp hi with h | h
    · obtain ⟨hgu, hgl⟩ := hget i h
      constructor
      · show ((cell6_loop find calcProf init n).upperS ++ [(find n).1.verts])[i]? = _
        rw [List.getElem?_append_left (by rw [hu]; exact h)]
        exact hgu
      · show ((cell6_loop find calcProf init n).lowerS ++ [(find n).2.verts])[i]? = _
        rw [List.getElem?_append_left (by rw [hl]; exact h)]
        exact hgl
    · subst h
      constructor
      · show ((cell6_loop find calcProf init i).upperS ++ [(find i).1.verts])[i]? = _
        have hc := List.getElem?_concat_length
          (cell6_loop find calcProf init i).upperS (find i).1.verts
        rw [hu] at hc
        exact hc
      · show ((cell6_loop find calcProf init i).lowerS ++ [(find i).2.verts])[i]? = _
        have hc := List.getElem?_concat_length
          (cell6_loop find calcProf init i).lowerS (find i).2.verts
        rw [hl] at hc
        exact hc

/-- Witness for the C10 loop invariant at a concrete two-frame run. -/
theorem cell6_loop_surfaces_witness :
    (cell6_loop (fun i => (⟨[(((i : ℚ)), 0, 0)], []⟩, ⟨[], []⟩))
        (fun _ _ _ _ d => d) [] 2).upperS[1]? = some [(((1 : ℚ)), 0, 0)] :=
  ((cell6_loop_surfaces (fun i => (⟨[(((i : ℚ)), 0, 0)], []⟩, ⟨[], []⟩))
      (fun _ _ _ _ d => d) [] 2).2.2.2 1 (by decide)).1

/-- Modelled from the spec: the per-axis cell-count selection of the
Periodic Grid inside `WCIS_functions` (not part of the excerpt) - the
nearest integer number of cells whose resulting spacing does not exceed
the requested spacing, i.e. the ceiling of length over spacing. -/
def gridCellCount (len spacing : ℚ) : ℤ :=
  ⌈len / spacing⌉

/-- Modelled from the spec: the actual per-axis grid spacing, length
divided by the chosen cell count. -/
def gridActualSpacing (len spacing : ℚ) : ℚ :=
  len / ((gridCellCount len spacing : ℤ) : ℚ)

/-- C6: for a valid axis (positive length, positive requested spacing) the
grid picks a positive cell count, the actual spacing does not exceed the
requested one, cell count times actual spacing reproduces the box length
exactly, and no smaller positive cell count would satisfy the spacing
bound (so the chosen count is the nearest one). -/
theorem grid_cell_count_spec (L s : ℚ) (hL : 0 < L) (hs : 0 < s) :
    0 < gridCellCount L s ∧
    gridActualSpacing L s ≤ s ∧
    ((gridCellCount L s : ℤ) : ℚ) * gridActualSpacing L s = L ∧
    ∀ m : ℤ, 0 < m → m < gridCellCount L s → s < L / ((m : ℤ) : ℚ) := by
  have hpos : 0 < gridCellCount L s := Int.ceil_pos.mpr (div_pos hL hs)
  have hposQ : (0 : ℚ) < ((gridCellCount L s : ℤ) : ℚ) := by
    exact_mod_cast hpos
  refine ⟨hpos, ?_, ?_, ?_⟩
  · rw [gridActualSpacing, div_le_iff₀ hposQ]
    calc L = (L / s) * s := by rw [div_mul_cancel₀ L (ne_of_gt hs)]
    _ ≤ ((gridCellCount L s : ℤ) : ℚ) * s := by
        exact mul_le_mul_of_nonneg_right (Int.le_ceil (L / s)) (le_of_lt hs)
    _ = s * ((gridCellCount L s : ℤ) : ℚ) := mul_comm _ _
  · rw [gridActualSpacing, mul_comm, div_mul_cancel₀ L (ne_of_gt hposQ)]
  · intro m hm hlt
    have hmQ : (0 : ℚ) < ((m : ℤ) : ℚ) := by exact_mod_cast hm
    rw [lt_div_iff₀ hmQ]
    have : ((m : ℤ) : ℚ) < L / s := by
      exact_mod_cast Int.lt_ceil.mp hlt
    calc s * ((m : ℤ) : ℚ) = ((m : ℤ) : ℚ) * s := mul_comm _ _
    _ < (L / s) * s := by exact mul_lt_mul_of_pos_right this hs
    _ = L := div_mul_cancel₀ L (ne_of_gt hs)

/-- Witness for the grid theorem: a box of length 3 with requested
spacing 2 gets 2 cells of actual spacing 3/2. -/
theorem grid_cell_count_spec_witness :
    gridActualSpacing 3 2 ≤ 2 ∧
    ((gridCellCount 3 2 : ℤ) : ℚ) * gridActualSpacing 3 2 = 3 :=
  ⟨(grid_cell_count_spec 3 2 (by norm_num) (by norm_num)).2.1,
   (grid_cell_count_spec 3 2 (by norm_num) (by norm_num)).2.2.1⟩

/-- The configuration handed to `initialize` in cell-4: mesh spacing,
Gaussian kernel width `alpha`, the per-frame box lengths, the monitored
species selectors, the frames to skip and the histogram bin edges. -/
structure Config where
  mesh : ℚ
  alpha : ℚ
  boxX : ℚ
  boxY : ℚ
  boxZ : ℚ
  molecules : List String
  nskip : Nat
  layers : List ℚ
  deriving DecidableEq

/-- The `params` dictionary produced by a successful `initialize` call:
the configured values plus the zero-initialized per-species accumulator
`params['data']`. -/
structure Params where
  mesh : ℚ
  alpha : ℚ
  layers : List ℚ
  data : ProfData
  deriving DecidableEq

/-- Modelled from the spec: the validation in `WCIS_functions.initialize`
(not part of the excerpt) - it fails with `InvalidConfiguration` when the
mesh spacing, any box length or the kernel width is non-positive, and
otherwise returns the parameter dictionary with every per-species
histogram zero-initialized (one bin per gap between consecutive layer
edges). -/
def paramsInit (cfg : Config) : Except WCError Params :=
  if cfg.mesh ≤ 0 ∨ cfg.boxX ≤ 0 ∨ cfg.boxY ≤ 0 ∨ cfg.boxZ ≤ 0 ∨ cfg.alpha ≤ 0 then
    Except.error WCError.InvalidConfiguration
  else
    Except.ok
      { mesh := cfg.mesh
        alpha := cfg.alpha
        layers := cfg.layers
        data := cfg.molecules.map
          (fun m => (m, AtomData.concOnly
            (List.replicate (cfg.layers.length - 1) 0)
            (List.replicate (cfg.layers.length - 1) 0))) }

/-- A whole run: initialization followed by the cell-6 frame loop on the
freshly created accumulator.  A configuration error aborts before the
loop, so no frame is processed and no accumulator state exists. -/
def runWC (cfg : Config) (find : Nat → Surface × Surface)
    (calcProf : Nat → Surface → Bool → ℤ → ProfData → ProfData)
    (n : Nat) : Except WCError Cell6State :=
  match paramsInit cfg with
  | Except.error e => Except.error e
  | Except.ok p => Except.ok (cell6_loop find calcProf p.data n)

/-- C5: a non-positive mesh spacing, box length or kernel width makes
initialization fail with `InvalidConfiguration`, and the whole run aborts
with that error before any frame is processed - no driver state (and so
no mutated accumulator) is ever produced, for every frame count. -/
theorem invalid_configuration_aborts (cfg : Config)
    (h : cfg.mesh ≤ 0 ∨ cfg.boxX ≤ 0 ∨ cfg.boxY ≤ 0 ∨ cfg.boxZ ≤ 0 ∨ cfg.alpha ≤ 0) :
    paramsInit cfg = Except.error WCError.InvalidConfiguration ∧
    ∀ find calcProf n,
      runWC cfg find calcProf n = Except.error WCError.InvalidConfiguration := by
  have hinit : paramsInit cfg = Except.error WCError.InvalidConfiguration := by
    unfold paramsInit
    rw [if_pos h]
  refine ⟨hinit, ?_⟩
  intro find calcProf n
  unfold runWC
  rw [hinit]

/-- Witness: a configuration with negative mesh spacing aborts the run. -/
theorem invalid_configuration_aborts_witness :
    runWC ⟨-1, 1, 1, 1, 1, [], 0, []⟩ (fun _ => (⟨[], []⟩, ⟨[], []⟩))
        (fun _ _ _ _ d => d) 5
      = Except.error WCError.InvalidConfiguration :=
  (invalid_configuration_aborts ⟨-1, 1, 1, 1, 1, [], 0, []⟩
    (Or.inl (by norm_num))).2 (fun _ => (⟨[], []⟩, ⟨[], []⟩)) (fun _ _ _ _ d => d) 5

/-- Modelled from the spec: the coarse-grained density field handed to
the Isosurface Extractor, already split along the z midplane into the
column of samples of the upper half and of the lower half of the slab
(`WCIS_functions.find_isosurfaces` is not part of the excerpt). -/
structure ScalarField where
  upperHalf : List ℚ
  lowerHalf : List ℚ
  deriving DecidableEq

/-- Modelled from the spec: whether the sampled field crosses the
isovalue, i.e. some sample is at or above it and some sample below it. -/
def crosses (vals : List ℚ) (iso : ℚ) : Bool :=
  vals.any (fun v => decide (iso ≤ v)) && vals.any (fun v => decide (v < iso))

/-- Modelled from the spec: marching-cubes style crossing points along a
sampled column - for every pair of consecutive samples that straddles the
isovalue, the crossing position located by linear interpolation along
that edge. -/
def crossPoints (iso : ℚ) : ℚ → List ℚ → List ℚ
  | _, [] => []
  | _, [_] => []
  | z, a :: b :: rest =>
      (if (a < iso ∧ iso ≤ b) ∨ (b < iso ∧ iso ≤ a) then
        [z + (iso - a) / (b - a)]
      else []) ++ crossPoints iso (z + 1) (b :: rest)

/-- Modelled from the spec: the triangulated Surface of one slab face,
its vertices the interpolated isovalue crossings of that face's field
samples. -/
def sideSurface (iso : ℚ) (vals : List ℚ) : Surface :=
  { verts := (crossPoints iso 0 vals).map (fun z => ((0 : ℚ), (0 : ℚ), z))
    faces := [] }

/-- Modelled from the spec: extraction of one slab face - if the field
samples never cross the isovalue the extractor fails with `NoCrossing`,
otherwise it returns the face's Surface. -/
def extractSide (iso : ℚ) (vals : List ℚ) : Except WCError Surface :=
  if crosses vals iso then Except.ok (sideSurface iso vals)
  else Except.error WCError.NoCrossing

/-- Modelled from the spec: `WCIS_functions.find_isosurfaces` - run the
extraction separately on the upper and the lower half of the slab and
return the two Surfaces; a half that never crosses makes the frame fail
with `NoCrossing`. -/
def find_isosurfaces (fld : ScalarField) (iso : ℚ) : Except WCError (Surface × Surface) :=
  match extractSide iso fld.upperHalf, extractSide iso fld.lowerHalf with
  | Except.ok u, Except.ok l => Except.ok (u, l)
  | Except.error e, _ => Except.error e
  | _, Except.error e => Except.error e

/-- C3: a frame whose density field crosses the isovalue on both slab
faces makes the extraction return exactly two Surface objects, the upper
face's and the lower face's. -/
theorem crossing_frame_two_surfaces (fld : ScalarField) (iso : ℚ)
    (hu : crosses fld.upperHalf iso = true)
    (hl : crosses fld.lowerHalf iso = true) :
    find_isosurfaces fld iso
      = Except.ok (sideSurface iso fld.upperHalf, sideSurface iso fld.lowerHalf) := by
  unfold find_isosurfaces extractSide
  rw [hu, hl]
  simp

/-- Witness: a field rising through the isovalue on the upper face and
falling through it on the lower face yields the two surfaces. -/
theorem crossing_frame_two_surfaces_witness :
    find_isosurfaces ⟨[0, 2], [2, 0]⟩ 1
      = Except.ok (sideSurface 1 [0, 2], sideSurface 1 [2, 0]) :=
  crossing_frame_two_surfaces ⟨[0, 2], [2, 0]⟩ 1 (by decide) (by decide)

/-- Modelled from the spec: one step of a frame driver that recovers from
`NoCrossing` as section 7 prescribes - on success it behaves like the
cell-6 body (append both vertex arrays, accumulate profiles, increment
`cnt`), on `NoCrossing` the frame contributes zero atoms to every
profile, nothing is appended, and the frame still increments the frame
counter. -/
def driverStep (iso : ℚ)
    (calcProf : Surface × Surface → ProfData → ProfData)
    (st : Cell6State) (fld : ScalarField) : Cell6State :=
  match find_isosurfaces fld iso with
  | Except.ok ul =>
      { upperS := st.upperS ++ [ul.1.verts]
        lowerS := st.lowerS ++ [ul.2.verts]
        cnt := st.cnt + 1
        data := calcProf ul st.data }
  | Except.error _ => { st with cnt := st.cnt + 1 }

/-- Modelled from the spec: the recovering frame driver over a list of
per-frame density fields. -/
def driverLoop (iso : ℚ)
    (calcProf : Surface × Surface → ProfData → ProfData)
    (st : Cell6State) (fs : List ScalarField) : Cell6State :=
  fs.foldl (driverStep iso calcProf) st

/-- C4: a frame whose density field never crosses the isovalue makes the
extractor fail with `NoCrossing`; the failure is recovered: that frame
contributes zero atoms to every profile (the accumulator and the surface
lists are untouched), the frame still increments the frame divisor `cnt`,
and the run continues over the remaining frames. -/
theorem nocrossing_frame_recovered (fld : ScalarField) (iso : ℚ)
    (calcProf : Surface × Surface → ProfData → ProfData)
    (hu : crosses fld.upperHalf iso = false)
    (_hl : crosses fld.lowerHalf iso = false) :
    find_isosurfaces fld iso = Except.error WCError.NoCrossing ∧
    ∀ (st : Cell6State) (fs : List ScalarField),
      driverStep iso calcProf st fld = { st with cnt := st.cnt + 1 } ∧
      driverLoop iso calcProf st (fld :: fs)
        = driverLoop iso calcProf { st with cnt := st.cnt + 1 } fs := by
  have hfind : find_isosurfaces fld iso = Except.error WCError.NoCrossing := by
    unfold find_isosurfaces extractSide
    rw [hu]
    simp
  refine ⟨hfind, ?_⟩
  intro st fs
  have hstep : driverStep iso calcProf st fld = { st with cnt := st.cnt + 1 } := by
    unfold driverStep
    rw [hfind]
  refine ⟨hstep, ?_⟩
  unfold driverLoop
  rw [List.foldl_cons, hstep]

/-- Witness: an all-zero field at isovalue 1 is recovered from; with two
remaining frames of the same field the run completes and counts all
three frames. -/
theorem nocrossing_frame_recovered_witness :
    driverLoop 1 (fun _ d => d) ⟨[], [], 0, []⟩
        [⟨[0, 0], [0, 0]⟩, ⟨[0, 0], [0, 0]⟩, ⟨[0, 0], [0, 0]⟩]
      = driverLoop 1 (fun _ d => d) ⟨[], [], 1, []⟩
          [⟨[0, 0], [0, 0]⟩, ⟨[0, 0], [0, 0]⟩] :=
  ((nocrossing_frame_recovered ⟨[0, 0], [0, 0]⟩ 1 (fun _ d => d)
      (by decide) (by decide)).2 ⟨[], [], 0, []⟩
      [⟨[0, 0], [0, 0]⟩, ⟨[0, 0], [0, 0]⟩]).2

/-- Modelled from the spec: the distance-binning of `calc_profiles`
(`WCIS_functions` is not part of the excerpt) - over the ascending bin
edges `layers`, the index of the closed-open bin [edge_i, edge_{i+1})
holding a signed distance, or `none` when the distance falls outside all
configured bins. -/
def binIndex : List ℚ → ℚ → Option Nat
  | e1 :: e2 :: rest, d =>
      if e1 ≤ d ∧ d < e2 then some 0
      else (binIndex (e2 :: rest) d).map (fun i => i + 1)
  | _, _ => none

/-- Add a weight to position `i` of a histogram; positions past the end
are left untouched. -/
def addAt : List ℚ → Nat → ℚ → List ℚ
  | [], _, _ => []
  | x :: xs, 0, w => (x + w) :: xs
  | x :: xs, Nat.succ n, w => x :: addAt xs n w

/-- Modelled from the spec: depositing one atom into a histogram - the
bin holding its signed distance is incremented by the atom's weight (1
for concentration, a cosine for orientation); an atom outside all bins is
silently skipped and the histogram is returned unchanged. -/
def deposit (edges hist : List ℚ) (d w : ℚ) : List ℚ :=
  match binIndex edges d with
  | some i => addAt hist i w
  | none => hist

/-- Modelled from the spec: one frame's in-place accumulation - every
atom of the frame, given as a (signed distance, weight) pair, is
deposited into the shared histogram in order. -/
def accumulateFrame (edges hist : List ℚ) (atoms : List (ℚ × ℚ)) : List ℚ :=
  atoms.foldl (fun h a => deposit edges h a.1 a.2) hist

/-- Bin-wise sum of two histograms, the merge of two accumulators. -/
def addHist (h g : List ℚ) : List ℚ :=
  List.zipWith (fun a b => a + b) h g

/-- Modelled from the spec: an atom's distance falls outside all
configured bin edges - below the first edge or at or beyond the last. -/
def outOfRange (edges : List ℚ) (d : ℚ) : Bool :=
  match edges.head?, edges.getLast? with
  | some e0, some eN => decide (d < e0) || decide (eN ≤ d)
  | _, _ => true

/-- In an ascending edge list, the head bounds every entry from below. -/
theorem sorted_head_le (e : ℚ) (l : List ℚ)
    (h : (e :: l).Pairwise (fun a b => a < b)) (j : Nat) (d : ℚ)
    (hd : (e :: l)[j]? = some d) : e ≤ d := by
  cases j with
  | zero =>
    simp only [List.getElem?_cons_zero, Option.some.injEq] at hd
    exact le_of_eq hd
  | succ j =>
    have hdl : l[j]? = some d := by simpa using hd
    exact le_of_lt ((List.pairwise_cons.mp h).1 d (List.getElem?_mem hdl))

/-- In an ascending edge list, the head bounds the last entry from
below. -/
theorem sorted_head_le_getLast (e : ℚ) (l : List ℚ)
    (h : (e :: l).Pairwise (fun a b => a < b)) (eN : ℚ)
    (hN : (e :: l).getLast? = some eN) : e ≤ eN := by
  have hmem : eN ∈ e :: l := List.mem_of_getLast?_eq_some hN
  rcases List.mem_cons.mp hmem with hm | hm
  · exact le_of_eq hm.symm
  · exact le_of_lt ((List.pairwise_cons.mp h).1 eN hm)

/-- C7: an atom whose signed distance sits exactly on a bin edge that is
not the last one is assigned to the bin of that edge's own index - the
lower-indexed bin of the two it touches, the closed-open convention. -/
theorem bin_boundary_to_lower_bin (edges : List ℚ)
    (hasc : edges.Pairwise (fun a b => a < b)) (i : Nat) (d : ℚ)
    (hd : edges[i]? = some d) (hi : i + 1 < edges.length) :
    binIndex edges d = some i := by
  induction edges generalizing i with
  | nil => simp at hd
  | cons e1 rest ih =>
    cases rest with
    | nil => simp at hi
    | cons e2 rest2 =>
      cases i with
      | zero =>
        have hde : e1 = d := by simpa using hd
        subst hde
        have h12 : e1 < e2 := (List.pairwise_cons.mp hasc).1 e2 (by simp)
        unfold binIndex
        rw [if_pos ⟨le_refl e1, h12⟩]
      | succ j =>
        have hd2 : (e2 :: rest2)[j]? = some d := by simpa using hd
        have hj : j + 1 < (e2 :: rest2).length := by
          simp only [List.length_cons] at hi ⊢
          omega
        have htail : (e2 :: rest2).Pairwise (fun a b => a < b) :=
          (List.pairwise_cons.mp hasc).2
        have he2d : e2 ≤ d := sorted_head_le e2 rest2 htail j d hd2
        unfold binIndex
        rw [if_neg (fun hc => absurd hc.2 (not_lt.mpr he2d)), ih htail j hd2 hj]
        rfl

/-- Witness: over the edges [0, 1, 2] a distance of exactly 1 lands in
bin 1, the bin [1, 2), not in bin [0, 1). -/
theorem bin_boundary_to_lower_bin_witness : binIndex [0, 1, 2] 1 = some 1 :=
  bin_boundary_to_lower_bin [0, 1, 2] (by decide) 1 1 (by decide) (by decide)

/-- An out-of-range distance matches no closed-open bin. -/
theorem binIndex_eq_none_of_outOfRange (d : ℚ) (edges : List ℚ)
    (hasc : edges.Pairwise (fun a b => a < b))
    (hout : outOfRange edges d = true) : binIndex edges d = none := by
  induction edges with
  | nil => rfl
  | cons e1 rest ih =>
    cases rest with
    | nil => rfl
    | cons e2 rest2 =>
      obtain ⟨eN, hN⟩ : ∃ eN, (e2 :: rest2).getLast? = some eN := by
        cases h : (e2 :: rest2).getLast? with
        | none =>
          have : (e2 :: rest2).getLast?.isSome := List.getLast?_isSome.mpr (by simp)
          rw [h] at this
          simp at this
        | some x => exact ⟨x, rfl⟩
      have htail : (e2 :: rest2).Pairwise (fun a b => a < b) :=
        (List.pairwise_cons.mp hasc).2
      have h12 : e1 < e2 := (List.pairwise_cons.mp hasc).1 e2 (by simp)
      have hout2 : d < e1 ∨ eN ≤ d := by
        unfold outOfRange at hout
        rw [List.head?_cons, List.getLast?_cons_cons, hN] at hout
        simpa using hout
      have houttail : outOfRange (e2 :: rest2) d = true := by
        unfold outOfRange
        rw [List.head?_cons, hN]
        rcases hout2 with h | h
        · simp [lt_trans h h12]
        · simp [h]
      have hcond : ¬(e1 ≤ d ∧ d < e2) := by
        rcases hout2 with h | h
        · exact fun hc => absurd hc.1 (not_le.mpr h)
        · have he2N : e2 ≤ eN := sorted_head_le_getLast e2 rest2 htail eN hN
          exact fun hc => absurd hc.2 (not_lt.mpr (le_trans he2N h))
      unfold binIndex
      rw [if_neg hcond, ih htail houttail]
      rfl

/-- C8: an atom whose signed distance falls outside all configured bin
edges is silently skipped - it matches no bin and depositing it is a
no-op that returns every histogram unchanged, for any weight. -/
theorem out_of_range_atom_noop (edges : List ℚ)
    (hasc : edges.Pairwise (fun a b => a < b)) (d : ℚ)
    (hout : outOfRange edges d = true) :
    binIndex edges d = none ∧ ∀ hist w, deposit edges hist d w = hist := by
  have hnone := binIndex_eq_none_of_outOfRange d edges hasc hout
  refine ⟨hnone, ?_⟩
  intro hist w
  unfold deposit
  rw [hnone]

/-- Witness: a distance of 5 lies beyond the edges [0, 1] and depositing
it leaves the histogram [3] untouched. -/
theorem out_of_range_atom_noop_witness : deposit [0, 1] [3] 5 7 = [3] :=
  (out_of_range_atom_noop [0, 1] (by decide) 5 (by decide)).2 [3] 7

/-- Incrementing a bin of a bin-wise sum increments it in either
summand. -/
theorem addAt_addHist (h : List ℚ) :
    ∀ (g : List ℚ) (i : Nat) (w : ℚ),
      addAt (addHist h g) i w = addHist h (addAt g i w) := by
  induction h with
  | nil => intro g i w; cases g <;> cases i <;> rfl
  | cons x xs ih =>
    intro g i w
    cases g with
    | nil => cases i <;> rfl
    | cons y ys =>
      cases i with
      | zero =>
        show (x + y + w) :: addHist xs ys = (x + (y + w)) :: addHist xs ys
        rw [add_assoc]
      | succ n =>
        show (x + y) :: addAt (addHist xs ys) n w = (x + y) :: addHist xs (addAt ys n w)
        rw [ih ys n w]

/-- Depositing an atom into a bin-wise sum deposits it in either
summand. -/
theorem deposit_addHist (edges h g : List ℚ) (d w : ℚ) :
    deposit edges (addHist h g) d w = addHist h (deposit edges g d w) := by
  unfold deposit
  cases binIndex edges d with
  | none => rfl
  | some i => exact addAt_addHist h g i w

/-- A frame accumulated on top of a bin-wise sum lands in either
summand. -/
theorem accumulateFrame_addHist (edges h : List ℚ) :
    ∀ (atoms : List (ℚ × ℚ)) (g : List ℚ),
      accumulateFrame edges (addHist h g) atoms
        = addHist h (accumulateFrame edges g atoms) := by
  intro atoms
  induction atoms with
  | nil => intro g; rfl
  | cons a as ih =>
    intro g
    show accumulateFrame edges (deposit edges (addHist h g) a.1 a.2) as = _
    rw [deposit_addHist, ih (deposit edges g a.1 a.2)]
    rfl

/-- Bins stay unchanged in number under a deposit. -/
theorem addAt_length : ∀ (l : List ℚ) (i : Nat) (w : ℚ), (addAt l i w).length = l.length := by
  intro l
  induction l with
  | nil => intro i w; rfl
  | cons x xs ih => intro i w; cases i with
    | zero => rfl
    | succ n => show (x :: addAt xs n w).length = _; simp [ih n w]

/-- Bins stay unchanged in number under one frame's accumulation. -/
theorem accumulateFrame_length (edges : List ℚ) :
    ∀ (atoms : List (ℚ × ℚ)) (hist : List ℚ),
      (accumulateFrame edges hist atoms).length = hist.length := by
  intro atoms
  induction atoms with
  | nil => intro hist; rfl
  | cons a as ih =>
    intro hist
    show (accumulateFrame edges (deposit edges hist a.1 a.2) as).length = _
    rw [ih]
    unfold deposit
    cases binIndex edges a.1 with
    | none => rfl
    | some i => exact addAt_length hist i a.2

/-- Adding an all-zero histogram of matching size is the identity. -/
theorem addHist_zero : ∀ (l : List ℚ) (n : Nat), l.length = n →
    addHist l (List.replicate n 0) = l := by
  intro l
  induction l with
  | nil => intro n h; subst h; rfl
  | cons x xs ih =>
    intro n h
    cases n with
    | zero => simp at h
    | succ m =>
      show (x + 0) :: addHist xs (List.replicate m 0) = x :: xs
      rw [add_zero, ih m (by simpa using h)]

/-- Bin-wise merge of histograms is commutative. -/
theorem addHist_comm : ∀ (h g : List ℚ), addHist h g = addHist g h := by
  intro h
  induction h with
  | nil => intro g; cases g <;> rfl
  | cons x xs ih =>
    intro g
    cases g with
    | nil => rfl
    | cons y ys =>
      show (x + y) :: addHist xs ys = (y + x) :: addHist ys xs
      rw [add_comm, ih ys]

/-- C9: profile accumulation is additive over frames - feeding a frame
once into each of two zero-initialized accumulators and merging bin-wise
equals feeding the same frame twice into one accumulator, and the
bin-wise merge of two accumulated histograms is commutative, so merge
order does not matter. -/
theorem accumulation_additive (edges : List ℚ) (atoms atoms2 : List (ℚ × ℚ)) (n : Nat) :
    addHist (accumulateFrame edges (List.replicate n 0) atoms)
        (accumulateFrame edges (List.replicate n 0) atoms)
      = accumulateFrame edges (accumulateFrame edges (List.replicate n 0) atoms) atoms ∧
    addHist (accumulateFrame edges (List.replicate n 0) atoms)
        (accumulateFrame edges (List.replicate n 0) atoms2)
      = addHist (accumulateFrame edges (List.replicate n 0) atoms2)
        (accumulateFrame edges (List.replicate n 0) atoms) := by
  refine ⟨?_, addHist_comm _ _⟩
  have hlen : (accumulateFrame edges (List.replicate n 0) atoms).length = n := by
    rw [accumulateFrame_length]
    exact List.length_replicate n 0
  calc addHist (accumulateFrame edges (List.replicate n 0) atoms)
          (accumulateFrame edges (List.replicate n 0) atoms)
      = accumulateFrame edges
          (addHist (accumulateFrame edges (List.replicate n 0) atoms)
            (List.replicate n 0)) atoms := by
        rw [accumulateFrame_addHist]
    _ = accumulateFrame edges (accumulateFrame edges (List.replicate n 0) atoms) atoms := by
        rw [addHist_zero _ n hlen]
